import Mathlib

/-!
Verification of the circular_buffer repository.

Shallow embedding of `basic_circular_buffer` (src/unnamed/part_001) and the
synchronized wrapper `circular_buffer` (src/circular_buffer.h).

Modelling conventions:
- the raw storage block is a `List (Option A)`; `some v` is a slot holding a
  live, constructed value and `none` is uninitialized memory;
- `size_t` cursors become `Nat`; the source never lets the cursors overflow in
  the states we reason about, so plain `Nat` arithmetic is faithful;
- a throwing element constructor is modelled by a separate function describing
  the state left behind when the construction throws (the source propagates the
  exception after that state is reached);
- `std::destroy(first, last)` over a slot range sets the slots to `none`; when
  the source passes `first > last` the C++ call is undefined behavior, and the
  model charitably destroys nothing in that case.
-/

namespace CircularBuffer

/-- State of `basic_circular_buffer<T>` (part_001 lines 176-194): the
capacity field stored in `cpair_`, the storage block, and the two cursors
`write_index_` and `oldest_index_`.  The length of `storage` is the slot count
of the currently allocated block, which the source tracks only implicitly
through the allocation size. -/
structure Buffer (α : Type) where
  capacity : Nat
  storage : List (Option α)
  write_index : Nat
  oldest_index : Nat
deriving DecidableEq

variable {α : Type}

/-- `checked_index_` of the buffer (part_001 lines 216-218):
`index >= capacity() ? index - capacity() : index`. -/
def checked_index (capacity i : Nat) : Nat :=
  if i ≥ capacity then i - capacity else i

/-- `size()` (part_001 lines 739-742). -/
def size (b : Buffer α) : Nat :=
  if b.write_index ≥ b.oldest_index then b.write_index - b.oldest_index
  else b.capacity - b.oldest_index + b.write_index

/-- `empty()` (part_001 lines 744-746): the source tests `write_index_ == 0`. -/
def empty (b : Buffer α) : Bool :=
  b.write_index == 0

/-- `front()` (part_001 lines 637-643): reads the slot at `oldest_index_`. -/
def front (b : Buffer α) : Option α :=
  b.storage.getD b.oldest_index none

/-- `operator[]` (part_001 lines 668-674): slot at
`checked_index_(oldest_index_ + index)`. -/
def getIdx (b : Buffer α) (i : Nat) : Option α :=
  b.storage.getD (checked_index b.capacity (b.oldest_index + i)) none

/-- `push_back_impl_` (part_001 lines 271-295).  Returns the `overwrite` flag
and the state after a successful call.  The destroy of the evicted slot and the
construction of the new value are the two `List.set` writes. -/
def push_back (b : Buffer α) (v : α) : Bool × Buffer α :=
  if b.capacity = 0 then (false, b)
  else
    let construct_index := checked_index b.capacity b.write_index
    if b.capacity ≤ b.write_index ∧ b.write_index - b.capacity = b.oldest_index then
      let b1 :=
        if b.oldest_index + 1 = b.capacity then
          { b with oldest_index := 0, write_index := b.capacity - 1 }
        else
          { b with oldest_index := b.oldest_index + 1 }
      let b2 := { b1 with
        storage := (b1.storage.set construct_index none).set construct_index (some v) }
      (true, { b2 with write_index := b2.write_index + 1 })
    else
      (false, { b with
        storage := b.storage.set construct_index (some v),
        write_index := b.write_index + 1 })

/-- `emplace_back` (part_001 lines 579-582) delegates to `push_back_impl_`
exactly like `push_back` does. -/
def emplace_back (b : Buffer α) (v : α) : Bool × Buffer α :=
  push_back b v

/-- State left by `push_back_impl_` when `alloc_traits::construct` throws
(part_001 line 291): on the overwrite path the cursors were already advanced
and the old element destroyed; `write_index_` is not incremented and the new
value is never stored. -/
def push_back_throw (b : Buffer α) : Buffer α :=
  if b.capacity = 0 then b
  else
    let construct_index := checked_index b.capacity b.write_index
    if b.capacity ≤ b.write_index ∧ b.write_index - b.capacity = b.oldest_index then
      let b1 :=
        if b.oldest_index + 1 = b.capacity then
          { b with oldest_index := 0, write_index := b.capacity - 1 }
        else
          { b with oldest_index := b.oldest_index + 1 }
      { b1 with storage := b1.storage.set construct_index none }
    else b

/-- `pop_front()` (part_001 lines 591-599). -/
def pop_front (b : Buffer α) : Buffer α :=
  let b1 := { b with
    storage := b.storage.set b.oldest_index none,
    oldest_index := b.oldest_index + 1 }
  if b1.oldest_index = b.capacity then
    { b1 with oldest_index := 0, write_index := b1.write_index - b.capacity }
  else b1

/-- `pop_back()` (part_001 lines 608-611). -/
def pop_back (b : Buffer α) : Buffer α :=
  { b with
    storage := b.storage.set (checked_index b.capacity (b.write_index - 1)) none,
    write_index := b.write_index - 1 }

/-- `append_impl_` (part_001 lines 252-263), success path: push elements while
input remains and `size() < capacity()`; returns the new state and the
unconsumed rest of the input. -/
def append (b : Buffer α) (xs : List α) : Buffer α × List α :=
  match xs with
  | [] => (b, [])
  | x :: rest =>
    if size b < b.capacity then append (push_back b x).2 rest
    else (b, x :: rest)

/-- `std::destroy(storage + a, storage + e)`: slots in `[a, e)` become
uninitialized.  For `a > e` the C++ call is undefined behavior; the model
destroys nothing then. -/
def destroy_range (storage : List (Option α)) (a e : Nat) : List (Option α) :=
  (List.range' a (e - a)).foldl (fun st i => st.set i none) storage

/-- `destroy_` (part_001 lines 223-231): destroy the occupied region described
by the cursors `oi` and `wi`. -/
def destroy (storage : List (Option α)) (capacity oi wi : Nat) : List (Option α) :=
  if wi < capacity then destroy_range storage oi wi
  else destroy_range (destroy_range storage oi capacity) 0 (wi - capacity)

/-- Inner loop of `append_impl_` when the construction of the element reached
after `k` successful pushes throws (part_001 lines 257-268): the catch block
runs `destroy_(storage_, capacity(), old_write, write_index_)` and then
restores `write_index_ = old_write` before rethrowing. -/
def append_throw_go (old_write : Nat) (b : Buffer α) (xs : List α) (k : Nat) : Buffer α :=
  match xs with
  | [] => b
  | x :: rest =>
    if size b < b.capacity then
      match k with
      | 0 =>
        let bt := push_back_throw b
        { bt with
          storage := destroy bt.storage bt.capacity old_write bt.write_index,
          write_index := old_write }
      | k + 1 => append_throw_go old_write (push_back b x).2 rest k
    else b

/-- `append_impl_` when the construction of the `(k+1)`-th pushed element
throws: `old_write` is saved on entry (part_001 line 255). -/
def append_throw (b : Buffer α) (xs : List α) (k : Nat) : Buffer α :=
  append_throw_go b.write_index b xs k

/-- `safe_data_copy_impl_` (part_001 lines 306-326): copy the logically oldest
`min(new_capacity, size)` elements into a fresh block at position 0, splitting
at the wrap point; the remaining slots of the new block stay uninitialized.
Returns the new block and the new `write_index_`.  `noexcept_data_move_impl_`
(lines 328-342) transfers exactly the same elements (moves are modelled as
copies of values), so one function models both strategies. -/
def safe_data_copy (new_capacity : Nat) (b : Buffer α) : List (Option α) × Nat :=
  let s := min new_capacity (size b)
  if b.oldest_index + s ≤ b.capacity then
    (((b.storage.drop b.oldest_index).take s) ++ List.replicate (new_capacity - s) none, s)
  else
    let copied := b.capacity - b.oldest_index
    ((b.storage.drop b.oldest_index).take copied
       ++ b.storage.take (s - copied)
       ++ List.replicate (new_capacity - s) none, s)

/-- `resize_impl_` (part_001 lines 344-368) as called by `resize` (lines
626-628): allocate `new_capacity` slots, transfer the data, set
`oldest_index_ = 0` and `write_index_` to the transferred count, destroy and
deallocate the old block, install the new one.  The source never assigns
`capacity_()`, so the stored capacity field keeps its old value. -/
def resize (b : Buffer α) (new_capacity : Nat) : Buffer α :=
  let r := safe_data_copy new_capacity b
  { capacity := b.capacity,
    storage := r.1,
    write_index := r.2,
    oldest_index := 0 }

/-- Capacity constructor (part_001 lines 388-391): pre-allocated uninitialized
storage, `size == 0`. -/
def mkCapacity (initial_capacity : Nat) : Buffer α :=
  { capacity := initial_capacity,
    storage := List.replicate initial_capacity none,
    write_index := 0,
    oldest_index := 0 }

/-- Default constructor (part_001 line 377): no allocation, everything zero. -/
def mkDefault : Buffer α :=
  { capacity := 0, storage := [], write_index := 0, oldest_index := 0 }

/-- Forward-iterator constructor via `construct_impl_` (part_001 lines
233-247): `capacity = size = ` length of the range, `oldest_index_ = 0`,
`write_index_ = capacity`. -/
def fromRange (xs : List α) : Buffer α :=
  { capacity := xs.length,
    storage := xs.map some,
    write_index := xs.length,
    oldest_index := 0 }

/-- Copy constructor (part_001 lines 447-455): fresh block of
`other.capacity()` slots filled by `safe_data_copy_impl_`, `oldest_index_ = 0`. -/
def copyCtor (other : Buffer α) : Buffer α :=
  let r := safe_data_copy other.capacity other
  { capacity := other.capacity,
    storage := r.1,
    write_index := r.2,
    oldest_index := 0 }

/-- Copy assignment (part_001 lines 482-498): allocate-and-swap when the
current capacity cannot hold the source content, otherwise destroy the current
elements and copy into the existing block in place. -/
def copyAssign (b other : Buffer α) : Buffer α :=
  if b.capacity < size other then copyCtor other
  else
    let cleared := destroy b.storage b.capacity b.oldest_index b.write_index
    let r := safe_data_copy b.capacity other
    { capacity := b.capacity,
      storage := (r.1.take r.2) ++ cleared.drop r.2,
      write_index := r.2,
      oldest_index := 0 }

/-- `swap` (part_001 lines 516-521): exchanges all four fields. -/
def swap (b other : Buffer α) : Buffer α × Buffer α :=
  (other, b)

/-- Move constructor (part_001 lines 464-466): swap with a default-constructed
buffer; the pair is (constructed buffer, moved-from source). -/
def moveCtor (other : Buffer α) : Buffer α × Buffer α :=
  (other, mkDefault)

/-- Iterate `push_back`, keeping only the state (the tests drive the buffer
this way). -/
def pushAll (b : Buffer α) (vs : List α) : Buffer α :=
  vs.foldl (fun s v => (push_back s v).2) b

/-- The logical sequence observed by iterating from `begin()` to `end()`:
the iterator visits indices `oldest_index_, ..., write_index_ - 1` and its
dereference (part_001 lines 78-80) reads the slot `index_` or
`index_ - capacity_`, which agrees with `checked_index` on these indices;
`operator[]` reads the same slots (lines 668-674). -/
def toList (b : Buffer α) : List (Option α) :=
  (List.range (size b)).map
    (fun j => b.storage.getD (checked_index b.capacity (b.oldest_index + j)) none)

/-- The occupied region of the storage block, as described by the invariant
comment in the source (part_001 lines 180-191): `[oldest, write)` when the
write cursor has not wrapped, otherwise `[oldest, capacity) ∪ [0, write - capacity)`. -/
def occupied (b : Buffer α) : List Nat :=
  if b.write_index < b.capacity then
    List.range' b.oldest_index (b.write_index - b.oldest_index)
  else
    List.range' b.oldest_index (b.capacity - b.oldest_index)
      ++ List.range (b.write_index - b.capacity)

/-- The cursor invariant of the data structure (part_001 lines 180-191):
`0 <= oldest_index_ < capacity()` and `oldest_index_ <= write_index_`, with the
write cursor at most one lap ahead; in the unallocated state both cursors are
zero. -/
def Inv (b : Buffer α) : Prop :=
  (b.capacity = 0 → b.oldest_index = 0 ∧ b.write_index = 0) ∧
  (0 < b.capacity →
    b.oldest_index < b.capacity ∧
    b.oldest_index ≤ b.write_index ∧
    b.write_index ≤ b.oldest_index + b.capacity)

/-- The full state invariant of claim C9: the cursor invariant, the occupied
region holding exactly `size()` slots, and `size() <= capacity()`. -/
def StateOk (b : Buffer α) : Prop :=
  Inv b ∧ (occupied b).length = size b ∧ size b ≤ b.capacity

/-- Iterator state (part_001 lines 13-34): base pointer, logical index and the
capacity snapshot. -/
structure Iter (α : Type) where
  base : List (Option α)
  index : Nat
  capacity : Nat
deriving DecidableEq

/-- `checked_index_` of the iterator (part_001 lines 36-38):
`index < capacity_ ? index_ : index_ - capacity_` — the comparison uses the
parameter but both results use the member `index_`. -/
def iter_checked_index (it : Iter α) (i : Nat) : Nat :=
  if i < it.capacity then it.index else it.index - it.capacity

/-- Iterator dereference (part_001 lines 78-80). -/
def iterDeref (it : Iter α) : Option α :=
  it.base.getD (iter_checked_index it it.index) none

/-- Iterator `operator[]` (part_001 lines 86-88). -/
def iterSubscript (it : Iter α) (n : Nat) : Option α :=
  it.base.getD (iter_checked_index it (it.index + n)) none

/-- Iterator pre-increment (part_001 lines 45-48). -/
def iterInc (it : Iter α) : Iter α :=
  { it with index := it.index + 1 }

/-- `begin()` (part_001 lines 683-685). -/
def beginIter (b : Buffer α) : Iter α :=
  { base := b.storage, index := b.oldest_index, capacity := b.capacity }

/-- The while loop of `wait_npop` (src/circular_buffer.h lines 285-307),
executed sequentially with the lock held and the buffer already non-empty:
while `read < count` and the buffer is not `empty()`, write `front()` to the
output and `pop_front()`.  The source declares `read = 0` and tests it but
never increments it; the model keeps `read` to stay faithful.  `fuel` bounds
the recursion, which the source loop does not bound. -/
def wait_npop_go (fuel : Nat) (b : Buffer α) (out : List (Option α)) (read count : Nat) :
    List (Option α) × Buffer α :=
  match fuel with
  | 0 => (out, b)
  | fuel + 1 =>
    if read < count ∧ empty b = false then
      wait_npop_go fuel (pop_front b) (out ++ [front b]) read count
    else (out, b)

/-- `wait_npop(out, count)` observed output and final state. -/
def wait_npop (b : Buffer α) (count fuel : Nat) : List (Option α) × Buffer α :=
  wait_npop_go fuel b [] 0 count

/-- Abstract model of one push on the logical sequence with capacity `c`: the
value goes to the back, evicting the front when the buffer is full. -/
def absPush (c : Nat) (l : List α) (v : α) : List α :=
  if l.length < c then l ++ [v] else l.drop 1 ++ [v]

/-- Representation relation for content reasoning: `b` is a buffer with
capacity and block size `c` whose logical sequence is `l`. -/
def Rep (c : Nat) (b : Buffer α) (l : List α) : Prop :=
  0 < c ∧ b.capacity = c ∧ b.storage.length = c ∧
  b.oldest_index < c ∧ b.oldest_index ≤ b.write_index ∧
  b.write_index = b.oldest_index + l.length ∧ l.length ≤ c ∧
  ∀ j, j < l.length →
    b.storage[checked_index c (b.oldest_index + j)]? = some (l[j]?)

/-- Conclusion of claim C9: every operation of the buffer leaves the state
invariant intact (the two pop operations under their documented nonempty
precondition). -/
def PreservesInv (b other : Buffer α) (v : α) (xs : List α) (k : Nat) : Prop :=
  StateOk (push_back b v).2 ∧
  StateOk (emplace_back b v).2 ∧
  (0 < size b → StateOk (pop_front b)) ∧
  (0 < size b → StateOk (pop_back b)) ∧
  StateOk (append b xs).1 ∧
  StateOk (resize b k) ∧
  StateOk (mkCapacity k : Buffer α) ∧
  StateOk (mkDefault : Buffer α) ∧
  StateOk (fromRange xs) ∧
  StateOk (copyCtor other) ∧
  StateOk (copyAssign b other) ∧
  StateOk (moveCtor b).1 ∧ StateOk (moveCtor b).2 ∧
  StateOk (swap b other).1 ∧ StateOk (swap b other).2

instance (b : Buffer α) : Decidable (Inv b) := by
  unfold Inv; infer_instance

instance (b : Buffer α) : Decidable (StateOk b) := by
  unfold StateOk; infer_instance

instance (c : Nat) (b : Buffer α) (l : List α) [DecidableEq α] :
    Decidable (Rep c b l) := by
  unfold Rep; infer_instance

section Lemmas

lemma checked_index_lt {c x : Nat} (hc : 0 < c) (hx : x < 2 * c) :
    checked_index c x < c := by
  unfold checked_index; split <;> omega

lemma checked_index_inj {c x y : Nat} (hx : x < 2 * c) (hy : y < 2 * c)
    (hxy : x < y + c) (hyx : y < x + c)
    (h : checked_index c x = checked_index c y) : x = y := by
  unfold checked_index at h; split at h <;> split at h <;> omega

lemma checked_index_of_lt {c x : Nat} (h : x < c) : checked_index c x = x := by
  unfold checked_index; split <;> omega

lemma checked_index_of_ge {c x : Nat} (h : c ≤ x) : checked_index c x = x - c := by
  unfold checked_index; split <;> omega

lemma size_of_le {b : Buffer α} (h : b.oldest_index ≤ b.write_index) :
    size b = b.write_index - b.oldest_index := by
  unfold size; split <;> omega

lemma stateOk_of_inv {b : Buffer α} (h : Inv b) : StateOk b := by
  obtain ⟨h0, hpos⟩ := h
  refine ⟨⟨h0, hpos⟩, ?_, ?_⟩ <;>
    rcases Nat.eq_zero_or_pos b.capacity with hc | hc
  · obtain ⟨ho, hw⟩ := h0 hc
    simp [occupied, size, hc, ho, hw]
  · obtain ⟨h1, h2, h3⟩ := hpos hc
    unfold occupied size
    split <;> simp [List.length_range', List.length_range] <;> omega
  · obtain ⟨ho, hw⟩ := h0 hc
    simp [size, hc, ho, hw]
  · obtain ⟨h1, h2, h3⟩ := hpos hc
    unfold size; split <;> omega

lemma safe_data_copy_snd (k : Nat) (b : Buffer α) :
    (safe_data_copy k b).2 = min k (size b) := by
  unfold safe_data_copy
  dsimp only
  split <;> rfl

lemma inv_push_back (b : Buffer α) (v : α) (h : Inv b) : Inv (push_back b v).2 := by
  obtain ⟨h0, hpos⟩ := h
  unfold push_back
  rcases Nat.eq_zero_or_pos b.capacity with hc | hc
  · simp only [hc, reduceIte]
    exact ⟨h0, hpos⟩
  · obtain ⟨h1, h2, h3⟩ := hpos hc
    split
    · exact ⟨h0, hpos⟩
    · split
      · split <;>
          exact ⟨fun hcc => by dsimp only at hcc ⊢; omega,
                 fun hcc => by dsimp only at hcc ⊢; omega⟩
      · exact ⟨fun hcc => by dsimp only at hcc ⊢; omega,
               fun hcc => by dsimp only at hcc ⊢; omega⟩

lemma inv_pop_front (b : Buffer α) (h : Inv b) (hne : 0 < size b) :
    Inv (pop_front b) := by
  obtain ⟨h0, hpos⟩ := h
  rcases Nat.eq_zero_or_pos b.capacity with hc | hc
  · obtain ⟨ho, hw⟩ := h0 hc
    rw [size_of_le (by omega)] at hne
    omega
  · obtain ⟨h1, h2, h3⟩ := hpos hc
    rw [size_of_le h2] at hne
    unfold pop_front
    dsimp only
    split <;>
      exact ⟨fun hcc => by dsimp only at hcc ⊢; omega,
             fun hcc => by dsimp only at hcc ⊢; omega⟩

lemma inv_pop_back (b : Buffer α) (h : Inv b) (hne : 0 < size b) :
    Inv (pop_back b) := by
  obtain ⟨h0, hpos⟩ := h
  rcases Nat.eq_zero_or_pos b.capacity with hc | hc
  · obtain ⟨ho, hw⟩ := h0 hc
    rw [size_of_le (by omega)] at hne
    omega
  · obtain ⟨h1, h2, h3⟩ := hpos hc
    rw [size_of_le h2] at hne
    unfold pop_back
    exact ⟨fun hcc => by dsimp only at hcc ⊢; omega,
           fun hcc => by dsimp only at hcc ⊢; omega⟩

lemma inv_append (b : Buffer α) (xs : List α) (h : Inv b) : Inv (append b xs).1 := by
  induction xs generalizing b with
  | nil => exact h
  | cons x rest ih =>
    unfold append
    split
    · exact ih _ (inv_push_back b x h)
    · exact h

lemma inv_mkCapacity (c : Nat) : Inv (mkCapacity c : Buffer α) := by
  unfold mkCapacity
  exact ⟨fun _ => ⟨rfl, rfl⟩, fun hc => by dsimp only at hc ⊢; omega⟩

lemma inv_mkDefault : Inv (mkDefault : Buffer α) := by
  unfold mkDefault
  exact ⟨fun _ => ⟨rfl, rfl⟩, fun hc => by dsimp only at hc; omega⟩

lemma inv_fromRange (xs : List α) : Inv (fromRange xs) := by
  unfold fromRange
  exact ⟨fun hc => by dsimp only at hc ⊢; omega,
         fun hc => by dsimp only at hc ⊢; omega⟩

lemma size_zero_of_cap_zero (b : Buffer α) (h : Inv b) (hc : b.capacity = 0) :
    size b = 0 := by
  obtain ⟨ho, hw⟩ := h.1 hc
  unfold size; split <;> omega

lemma size_le_capacity (b : Buffer α) (h : Inv b) : size b ≤ b.capacity := by
  obtain ⟨h0, hpos⟩ := h
  rcases Nat.eq_zero_or_pos b.capacity with hc | hc
  · obtain ⟨ho, hw⟩ := h0 hc
    unfold size; split <;> omega
  · obtain ⟨h1, h2, h3⟩ := hpos hc
    rw [size_of_le h2]; omega

lemma inv_resize (b : Buffer α) (k : Nat) (h : Inv b) : Inv (resize b k) := by
  have hs := size_le_capacity b h
  unfold resize
  refine ⟨fun hc => ?_, fun hc => ?_⟩ <;> dsimp only at hc ⊢ <;>
    rw [safe_data_copy_snd]
  · have := size_zero_of_cap_zero b h hc
    omega
  · omega

lemma inv_copyCtor (other : Buffer α) (h : Inv other) : Inv (copyCtor other) := by
  have hs := size_le_capacity other h
  unfold copyCtor
  refine ⟨fun hc => ?_, fun hc => ?_⟩ <;> dsimp only at hc ⊢ <;>
    rw [safe_data_copy_snd]
  · have := size_zero_of_cap_zero other h hc
    omega
  · omega

lemma inv_copyAssign (b other : Buffer α) (hb : Inv b) (ho : Inv other) :
    Inv (copyAssign b other) := by
  have hs := size_le_capacity other ho
  unfold copyAssign
  split
  · exact inv_copyCtor other ho
  · refine ⟨fun hc => ?_, fun hc => ?_⟩ <;> dsimp only at hc ⊢ <;>
      rw [safe_data_copy_snd] <;> omega

lemma push_back_not_full (b : Buffer α) (v : α) (hc : ¬ b.capacity = 0)
    (hov : ¬ (b.capacity ≤ b.write_index ∧ b.write_index - b.capacity = b.oldest_index)) :
    push_back b v = (false,
      { b with
        storage := b.storage.set (checked_index b.capacity b.write_index) (some v),
        write_index := b.write_index + 1 }) := by
  unfold push_back
  rw [if_neg hc]
  dsimp only
  rw [if_neg hov]

lemma push_back_full_wrap (b : Buffer α) (v : α) (hc : ¬ b.capacity = 0)
    (hov : b.capacity ≤ b.write_index ∧ b.write_index - b.capacity = b.oldest_index)
    (hwrap : b.oldest_index + 1 = b.capacity) :
    push_back b v = (true,
      { b with
        oldest_index := 0,
        write_index := b.capacity - 1 + 1,
        storage := (b.storage.set (checked_index b.capacity b.write_index) none).set
          (checked_index b.capacity b.write_index) (some v) }) := by
  unfold push_back
  rw [if_neg hc]
  dsimp only
  rw [if_pos hov, if_pos hwrap]

lemma push_back_full_nowrap (b : Buffer α) (v : α) (hc : ¬ b.capacity = 0)
    (hov : b.capacity ≤ b.write_index ∧ b.write_index - b.capacity = b.oldest_index)
    (hwrap : ¬ b.oldest_index + 1 = b.capacity) :
    push_back b v = (true,
      { b with
        oldest_index := b.oldest_index + 1,
        write_index := b.write_index + 1,
        storage := (b.storage.set (checked_index b.capacity b.write_index) none).set
          (checked_index b.capacity b.write_index) (some v) }) := by
  unfold push_back
  rw [if_neg hc]
  dsimp only
  rw [if_pos hov, if_neg hwrap]

lemma rep_size {c : Nat} {b : Buffer α} {l : List α} (hr : Rep c b l) :
    size b = l.length := by
  obtain ⟨hc, hcap, hlen, hoi, hole, hwi, hlc, hslot⟩ := hr
  rw [size_of_le hole]
  omega

lemma rep_mkCapacity (c : Nat) (hc : 0 < c) : Rep c (mkCapacity c : Buffer α) [] := by
  refine ⟨hc, rfl, by simp [mkCapacity], hc, Nat.le_refl _, rfl, by simp, ?_⟩
  intro j hj
  simp at hj

lemma rep_toList {c : Nat} {b : Buffer α} {l : List α} (hr : Rep c b l) :
    toList b = l.map some := by
  obtain ⟨hc, hcap, hlen, hoi, hole, hwi, hlc, hslot⟩ := hr
  subst hcap
  have hsz : size b = l.length := by rw [size_of_le hole]; omega
  unfold toList
  rw [hsz]
  apply List.ext_getElem?
  intro n
  rcases Nat.lt_or_ge n l.length with hn | hn
  · rw [List.getElem?_map, List.getElem?_map, List.getElem?_range hn,
      List.getElem?_eq_getElem hn]
    simp only [Option.map_some']
    rw [List.getD_eq_getElem?_getD, hslot n hn, List.getElem?_eq_getElem hn]
    rfl
  · rw [List.getElem?_map, List.getElem?_map,
      List.getElem?_eq_none (by simpa using hn),
      List.getElem?_eq_none (by simpa using hn)]
    rfl

lemma rep_push_back {c : Nat} {b : Buffer α} {l : List α} (v : α) (hr : Rep c b l) :
    Rep c (push_back b v).2 (absPush c l v) := by
  obtain ⟨hc, hcap, hlen, hoi, hole, hwi, hlc, hslot⟩ := hr
  subst hcap
  by_cases hfull : l.length < b.capacity
  · -- free space: no overwrite; the value lands in the slot after the region
    have hov : ¬ (b.capacity ≤ b.write_index ∧
        b.write_index - b.capacity = b.oldest_index) := by omega
    rw [push_back_not_full b v (by omega) hov]
    unfold absPush
    rw [if_pos hfull]
    unfold Rep
    dsimp only
    refine ⟨hc, rfl, by simp [hlen], hoi, by omega, by simp; omega, by simp; omega, ?_⟩
    intro j hj
    simp only [List.length_append, List.length_cons, List.length_nil] at hj
    rcases Nat.lt_or_ge j l.length with hjl | hje
    · have hne : checked_index b.capacity b.write_index ≠
          checked_index b.capacity (b.oldest_index + j) := by
        intro heq
        have := checked_index_inj (c := b.capacity)
          (by omega) (by omega) (by omega) (by omega) heq
        omega
      rw [List.getElem?_set_ne hne, hslot j hjl, List.getElem?_append_left hjl]
    · have hje' : j = l.length := by omega
      subst hje'
      rw [show b.oldest_index + l.length = b.write_index by omega]
      rw [List.getElem?_set_self
        (by rw [hlen]; exact checked_index_lt hc (by omega))]
      rw [List.getElem?_append_right (Nat.le_refl _)]
      simp
  · -- buffer full: the oldest element is evicted
    have hlenc : l.length = b.capacity := by omega
    have hov : b.capacity ≤ b.write_index ∧
        b.write_index - b.capacity = b.oldest_index := by omega
    have hci : checked_index b.capacity b.write_index = b.oldest_index := by
      rw [checked_index_of_ge (by omega)]; omega
    unfold absPush
    rw [if_neg hfull]
    by_cases hwrap : b.oldest_index + 1 = b.capacity
    · rw [push_back_full_wrap b v (by omega) hov hwrap]
      unfold Rep
      dsimp only
      refine ⟨hc, rfl, by simp [hlen], hc, by omega, by simp; omega, by simp; omega, ?_⟩
      intro j hj
      simp only [List.length_append, List.length_cons, List.length_nil,
        List.length_drop] at hj
      have hjc : j < b.capacity := by omega
      rw [Nat.zero_add, checked_index_of_lt hjc, hci]
      rcases Nat.lt_or_ge j (b.capacity - 1) with hjl | hje
      · have hne : b.oldest_index ≠ j := by omega
        rw [List.getElem?_set_ne hne, List.getElem?_set_ne hne]
        have hpos : checked_index b.capacity (b.oldest_index + (j + 1)) = j := by
          rw [show b.oldest_index + (j + 1) = b.capacity + j by omega]
          rw [checked_index_of_ge (by omega)]
          omega
        have hs := hslot (j + 1) (by omega)
        rw [hpos] at hs
        rw [hs]
        rw [List.getElem?_append_left (by simp; omega), List.getElem?_drop]
        rw [show 1 + j = j + 1 from Nat.add_comm 1 j]
      · have hje' : j = b.capacity - 1 := by omega
        subst hje'
        rw [show b.oldest_index = b.capacity - 1 by omega]
        rw [List.getElem?_set_self (by simp [hlen]; omega)]
        rw [List.getElem?_append_right (by simp; omega)]
        rw [show b.capacity - 1 - (l.drop 1).length = 0 by simp; omega]
        simp
    · rw [push_back_full_nowrap b v (by omega) hov hwrap]
      unfold Rep
      dsimp only
      refine ⟨hc, rfl, by simp [hlen], by omega, by omega, by simp; omega,
        by simp; omega, ?_⟩
      intro j hj
      simp only [List.length_append, List.length_cons, List.length_nil,
        List.length_drop] at hj
      have hjc : j < b.capacity := by omega
      rw [hci]
      rcases Nat.lt_or_ge j (b.capacity - 1) with hjl | hje
      · have hne : b.oldest_index ≠ checked_index b.capacity (b.oldest_index + 1 + j) := by
          intro heq
          have heq' : checked_index b.capacity (b.oldest_index + 1 + j) =
              checked_index b.capacity b.oldest_index := by
            rw [checked_index_of_lt hoi]
            omega
          have := checked_index_inj (c := b.capacity)
            (by omega) (by omega) (by omega) (by omega) heq'
          omega
        rw [List.getElem?_set_ne hne, List.getElem?_set_ne hne]
        have hpos : b.oldest_index + 1 + j = b.oldest_index + (j + 1) := by omega
        rw [hpos, hslot (j + 1) (by omega)]
        rw [List.getElem?_append_left (by simp; omega), List.getElem?_drop]
        rw [show 1 + j = j + 1 from Nat.add_comm 1 j]
      · have hje' : j = b.capacity - 1 := by omega
        subst hje'
        rw [show b.oldest_index + 1 + (b.capacity - 1) = b.oldest_index + b.capacity by omega]
        rw [checked_index_of_ge (by omega)]
        rw [show b.oldest_index + b.capacity - b.capacity = b.oldest_index by omega]
        rw [List.getElem?_set_self (by simp [hlen]; omega)]
        rw [List.getElem?_append_right (by simp; omega)]
        rw [show b.capacity - 1 - (l.drop 1).length = 0 by simp; omega]
        simp

lemma rep_pushAll {c : Nat} {b : Buffer α} {l : List α} (vs : List α) (hr : Rep c b l) :
    Rep c (pushAll b vs) (vs.foldl (absPush c) l) := by
  induction vs generalizing b l with
  | nil => exact hr
  | cons v rest ih => exact ih (rep_push_back v hr)

lemma foldl_absPush (c : Nat) (hc : 0 < c) (vs : List α) :
    ∀ l : List α, l.length ≤ c →
      vs.foldl (absPush c) l = (l ++ vs).drop (l.length + vs.length - c) := by
  induction vs with
  | nil =>
    intro l hl
    simp [Nat.sub_eq_zero_of_le hl]
  | cons v rest ih =>
    intro l hl
    rw [List.foldl_cons]
    by_cases hfull : l.length < c
    · rw [show absPush c l v = l ++ [v] by unfold absPush; rw [if_pos hfull]]
      rw [ih (l ++ [v]) (by simp; omega)]
      rw [List.append_assoc, List.singleton_append]
      congr 1
      simp
      omega
    · have hlc : l.length = c := by omega
      rw [show absPush c l v = l.drop 1 ++ [v] by unfold absPush; rw [if_neg hfull]]
      rw [ih (l.drop 1 ++ [v]) (by simp; omega)]
      cases l with
      | nil => simp at hlc; omega
      | cons a t =>
        have ht : t.length + 1 = c := by simpa using hlc
        rw [show ((a :: t).length + (v :: rest).length - c) = rest.length + 1 by
          simp; omega]
        rw [show (((a :: t).drop 1 ++ [v]).length + rest.length - c) = rest.length by
          simp; omega]
        rw [List.cons_append, List.drop_succ_cons, List.drop_succ_cons, List.drop_zero,
          List.append_assoc, List.singleton_append]

lemma safe_data_copy_spec {c : Nat} {b : Buffer α} {l : List α} (hr : Rep c b l)
    (k : Nat) :
    (safe_data_copy k b).1.length = k ∧
    ∀ n, n < min k l.length → (safe_data_copy k b).1[n]? = some (l[n]?) := by
  obtain ⟨hc, hcap, hlen, hoi, hole, hwi, hlc, hslot⟩ := hr
  subst hcap
  have hsz : size b = l.length := by rw [size_of_le hole]; omega
  unfold safe_data_copy
  dsimp only
  rw [hsz]
  split
  · next hbr =>
    constructor
    · simp [hlen]
      omega
    · intro n hn
      rw [List.getElem?_append_left (by simp [hlen]; omega)]
      rw [List.getElem?_take_of_lt (by omega), List.getElem?_drop]
      have hs := hslot n (by omega)
      rw [checked_index_of_lt (by omega)] at hs
      exact hs
  · next hbr =>
    constructor
    · simp [hlen]
      omega
    · intro n hn
      rcases Nat.lt_or_ge n (b.capacity - b.oldest_index) with hn1 | hn1
      · rw [List.getElem?_append_left (by simp [hlen]; omega)]
        rw [List.getElem?_append_left (by simp [hlen]; omega)]
        rw [List.getElem?_take_of_lt hn1, List.getElem?_drop]
        have hs := hslot n (by omega)
        rw [checked_index_of_lt (by omega)] at hs
        exact hs
      · rw [List.getElem?_append_left (by simp [hlen]; omega)]
        rw [List.getElem?_append_right (by simp [hlen]; omega)]
        have hs := hslot n (by omega)
        rw [checked_index_of_ge (by omega)] at hs
        rw [List.getElem?_take_of_lt (by simp [hlen]; omega)]
        rw [show (List.take (b.capacity - b.oldest_index) (List.drop b.oldest_index b.storage)).length
            = b.capacity - b.oldest_index by simp [hlen]]
        rw [show n - (b.capacity - b.oldest_index) = b.oldest_index + n - b.capacity by omega]
        exact hs

end Lemmas

section Claims

/-- Claim C1: the spec and the doc comment of `resize` both state that after
`resize(k)` the stored capacity equals `k`.  The source `resize_impl_`
(part_001 lines 344-368) never assigns `capacity_()`: after resizing a
capacity-2 buffer to 3, `capacity()` still returns 2. -/
theorem resize_capacity_not_updated :
    (resize (mkCapacity 2 : Buffer Nat) 3).capacity = 2 ∧
    (resize (mkCapacity 2 : Buffer Nat) 3).capacity ≠ 3 := by decide

/-- Claim C2: pushing `vs` into an empty buffer of capacity `c > 0` leaves
`size()` equal to `min` of the push count and `c`, and iterating front to back
yields exactly the last `min(n, c)` pushed values in push order. -/
theorem push_back_fifo (c : Nat) (hc : 0 < c) (vs : List α) :
    size (pushAll (mkCapacity c) vs) = min vs.length c ∧
    toList (pushAll (mkCapacity c) vs) = (vs.drop (vs.length - c)).map some := by
  have hrep := rep_pushAll vs (rep_mkCapacity c hc)
  rw [foldl_absPush c hc vs [] (by simp)] at hrep
  simp only [List.nil_append, List.length_nil, Nat.zero_add] at hrep
  refine ⟨?_, rep_toList hrep⟩
  rw [rep_size hrep]
  simp
  omega

theorem push_back_fifo_witness :
    0 < 2 ∧
    (size (pushAll (mkCapacity 2) [10, 20, 30]) = min ([10, 20, 30] : List Nat).length 2 ∧
      toList (pushAll (mkCapacity 2) [10, 20, 30]) =
        (([10, 20, 30] : List Nat).drop (([10, 20, 30] : List Nat).length - 2)).map some) :=
  ⟨by decide, push_back_fifo 2 (by decide) [10, 20, 30]⟩

/-- Claim C3: `push_back` reports an overwrite exactly when the buffer was full
(`size() == capacity() > 0`) at the call, and a capacity-0 call is a no-op
returning no overwrite. -/
theorem push_back_overwrite_iff_full (b : Buffer α) (v : α) (hb : Inv b) :
    ((push_back b v).1 = true ↔ 0 < b.capacity ∧ size b = b.capacity) ∧
    (b.capacity = 0 → push_back b v = (false, b)) := by
  obtain ⟨h0, hpos⟩ := hb
  constructor
  · rcases Nat.eq_zero_or_pos b.capacity with hc | hc
    · unfold push_back
      rw [if_pos hc]
      simp [hc]
    · obtain ⟨h1, h2, h3⟩ := hpos hc
      rw [size_of_le h2]
      by_cases hov : b.capacity ≤ b.write_index ∧
          b.write_index - b.capacity = b.oldest_index
      · by_cases hwrap : b.oldest_index + 1 = b.capacity
        · rw [push_back_full_wrap b v (by omega) hov hwrap]
          simp
          omega
        · rw [push_back_full_nowrap b v (by omega) hov hwrap]
          simp
          omega
      · rw [push_back_not_full b v (by omega) hov]
        simp
        omega
  · intro hc
    unfold push_back
    rw [if_pos hc]

theorem push_back_overwrite_iff_full_witness :
    Inv (pushAll (mkCapacity 2) [5, 6]) ∧
    (((push_back (pushAll (mkCapacity 2) [5, 6]) 7).1 = true ↔
        0 < (pushAll (mkCapacity 2) [5, 6]).capacity ∧
          size (pushAll (mkCapacity 2) [5, 6]) = (pushAll (mkCapacity 2) [5, 6]).capacity) ∧
      ((pushAll (mkCapacity 2) [5, 6]).capacity = 0 →
        push_back (pushAll (mkCapacity 2) [5, 6]) 7 =
          (false, pushAll (mkCapacity 2) [5, 6]))) :=
  ⟨by decide, push_back_overwrite_iff_full (pushAll (mkCapacity 2) [5, 6]) 7 (by decide)⟩

/-- Claim C4 counterexample: the claim states that after a throwing
construction on a full buffer `size()` is unchanged (still `capacity()`).  On
the full capacity-2 buffer holding 1, 2 the source leaves `size() = 1`:
`oldest_index_` was already advanced when the construction throws, while
`write_index_` is not incremented. -/
theorem push_back_throw_size_changed :
    size (pushAll (mkCapacity 2) [1, 2]) = 2 ∧
    size (push_back_throw (pushAll (mkCapacity 2) [1, 2])) = 1 := by decide

/-- Claim C4 as amended: if construction throws during a `push_back` on a full
buffer, afterwards `size()` equals `capacity() - 1` (the evicted element is
gone and its slot is not counted as occupied) and the cursor invariant still
holds. -/
theorem push_back_throw_size_amended (b : Buffer α) (hb : Inv b)
    (hc : 0 < b.capacity) (hfull : size b = b.capacity) :
    size (push_back_throw b) = b.capacity - 1 ∧ Inv (push_back_throw b) := by
  obtain ⟨h0, hpos⟩ := hb
  obtain ⟨h1, h2, h3⟩ := hpos hc
  rw [size_of_le h2] at hfull
  unfold push_back_throw
  rw [if_neg (by omega)]
  dsimp only
  rw [if_pos (by omega : b.capacity ≤ b.write_index ∧
    b.write_index - b.capacity = b.oldest_index)]
  by_cases hwrap : b.oldest_index + 1 = b.capacity
  · rw [if_pos hwrap]
    refine ⟨?_, fun hcc => by dsimp only at hcc ⊢; omega,
      fun hcc => by dsimp only at hcc ⊢; omega⟩
    rw [size_of_le (by dsimp only; omega)]
    dsimp only
    omega
  · rw [if_neg hwrap]
    refine ⟨?_, fun hcc => by dsimp only at hcc ⊢; omega,
      fun hcc => by dsimp only at hcc ⊢; omega⟩
    rw [size_of_le (by dsimp only; omega)]
    dsimp only
    omega

theorem push_back_throw_size_amended_witness :
    Inv (pushAll (mkCapacity 2) [1, 2]) ∧
    0 < (pushAll (mkCapacity 2) [1, 2]).capacity ∧
    size (pushAll (mkCapacity 2) [1, 2]) = (pushAll (mkCapacity 2) [1, 2]).capacity ∧
    (size (push_back_throw (pushAll (mkCapacity 2) [1, 2])) =
        (pushAll (mkCapacity 2) [1, 2]).capacity - 1 ∧
      Inv (push_back_throw (pushAll (mkCapacity 2) [1, 2]))) :=
  ⟨by decide, by decide, by decide,
    push_back_throw_size_amended (pushAll (mkCapacity 2) [1, 2])
      (by decide) (by decide) (by decide)⟩

/-- Claim C5: the strong guarantee of `append` fails when the pre-call write
cursor has wrapped past `capacity`.  Reachable state: capacity 4, pushes of
1..5 then one `pop_front` give `oldest_index_ = 2`, `write_index_ = 5`, logical
content 3, 4, 5.  If the first construction of `append` throws, the catch
block calls `destroy_(storage_, capacity(), 5, 5)`, whose split destroys the
live wrapped slot 0 (and in C++ also runs `std::destroy` over the reversed
range `[5, 4)`, which is undefined behavior); the buffer content afterwards
differs from the pre-call content. -/
theorem append_rollback_not_strong :
    toList (pop_front (pushAll (mkCapacity 4) [1, 2, 3, 4, 5])) =
      [some 3, some 4, some 5] ∧
    toList (append_throw (pop_front (pushAll (mkCapacity 4) [1, 2, 3, 4, 5])) [9] 0) =
      [some 3, some 4, none] ∧
    toList (append_throw (pop_front (pushAll (mkCapacity 4) [1, 2, 3, 4, 5])) [9] 0) ≠
      toList (pop_front (pushAll (mkCapacity 4) [1, 2, 3, 4, 5])) := by decide

/-- Claim C6: `wait_npop` declares `read`, tests `read < count`, but never
increments it, so the loop drains the buffer completely regardless of `count`.
On a buffer holding 1, 2, 3 with `count = 1` the call removes all three
elements and writes all three to the output. -/
theorem wait_npop_ignores_count :
    (wait_npop (pushAll (mkCapacity 3) [1, 2, 3]) 1 10).1 =
      [some 1, some 2, some 3] ∧
    size (wait_npop (pushAll (mkCapacity 3) [1, 2, 3]) 1 10).2 = 0 := by decide

/-- Claim C7: after `resize(k)`, iteration yields exactly the oldest
`min(k, size)` elements of the pre-resize logical sequence, in order (the full
sequence when `k` is at least the size). -/
theorem resize_keeps_oldest (c k : Nat) (b : Buffer α) (l : List α) (hr : Rep c b l) :
    toList (resize b k) = (l.take (min k l.length)).map some := by
  have hspec := safe_data_copy_spec hr k
  obtain ⟨hc, hcap, hlen, hoi, hole, hwi, hlc, hslot⟩ := hr
  subst hcap
  have hsz : size b = l.length := by rw [size_of_le hole]; omega
  unfold toList resize
  dsimp only
  rw [size_of_le (Nat.zero_le _), Nat.sub_zero, safe_data_copy_snd, hsz]
  apply List.ext_getElem?
  intro n
  rcases Nat.lt_or_ge n (min k l.length) with hn | hn
  · rw [List.getElem?_map, List.getElem?_map, List.getElem?_range hn,
      List.getElem?_take_of_lt hn, List.getElem?_eq_getElem (by omega)]
    simp only [Option.map_some']
    rw [Nat.zero_add, checked_index_of_lt (by omega)]
    rw [List.getD_eq_getElem?_getD, hspec.2 n hn,
      List.getElem?_eq_getElem (by omega : n < l.length)]
    rfl
  · rw [List.getElem?_map, List.getElem?_map,
      List.getElem?_eq_none (by simpa using hn),
      List.getElem?_eq_none (by simp; omega)]
    rfl

theorem resize_keeps_oldest_witness :
    Rep 3 (pushAll (mkCapacity 3) [1, 2, 3]) ([1, 2, 3] : List Nat) ∧
    toList (resize (pushAll (mkCapacity 3) [1, 2, 3]) 2) =
      (([1, 2, 3] : List Nat).take (min 2 ([1, 2, 3] : List Nat).length)).map some :=
  ⟨by decide, resize_keeps_oldest 3 2 (pushAll (mkCapacity 3) [1, 2, 3]) [1, 2, 3] (by decide)⟩

/-- Claim C9: every operation of the buffer preserves the state invariant:
when the capacity is positive the oldest cursor stays inside `[0, capacity)`,
the occupied region determined by the cursors holds exactly `size()` slots, and
`size()` never exceeds `capacity()`. -/
theorem operations_preserve_invariant (b other : Buffer α) (v : α) (xs : List α)
    (k : Nat) (hb : StateOk b) (ho : StateOk other) :
    PreservesInv b other v xs k := by
  obtain ⟨hbI, -, -⟩ := hb
  obtain ⟨hoI, -, -⟩ := ho
  exact ⟨stateOk_of_inv (inv_push_back b v hbI),
    stateOk_of_inv (inv_push_back b v hbI),
    fun hne => stateOk_of_inv (inv_pop_front b hbI hne),
    fun hne => stateOk_of_inv (inv_pop_back b hbI hne),
    stateOk_of_inv (inv_append b xs hbI),
    stateOk_of_inv (inv_resize b k hbI),
    stateOk_of_inv (inv_mkCapacity k),
    stateOk_of_inv inv_mkDefault,
    stateOk_of_inv (inv_fromRange xs),
    stateOk_of_inv (inv_copyCtor other hoI),
    stateOk_of_inv (inv_copyAssign b other hbI hoI),
    stateOk_of_inv hbI,
    stateOk_of_inv inv_mkDefault,
    stateOk_of_inv hoI,
    stateOk_of_inv hbI⟩

theorem operations_preserve_invariant_witness :
    StateOk (pushAll (mkCapacity 3) [1, 2, 3, 4]) ∧
    StateOk (pushAll (mkCapacity 2) [9]) ∧
    PreservesInv (pushAll (mkCapacity 3) [1, 2, 3, 4]) (pushAll (mkCapacity 2) [9])
      7 [5, 6] 2 :=
  ⟨by decide, by decide,
    operations_preserve_invariant (pushAll (mkCapacity 3) [1, 2, 3, 4])
      (pushAll (mkCapacity 2) [9]) 7 [5, 6] 2 (by decide) (by decide)⟩

/-- Claim C10: `empty()` tests `write_index_ == 0` rather than `size() == 0`.
The reachable state capacity 2, one push, one `pop_front` has `size() = 0` but
`empty()` returns false (`oldest_index_ = write_index_ = 1`). -/
theorem empty_disagrees_with_size :
    size (pop_front (pushAll (mkCapacity 2) [7])) = 0 ∧
    empty (pop_front (pushAll (mkCapacity 2) [7])) = false := by decide

/-- Claim C8: the iterator `checked_index_` compares its parameter against the
capacity but returns the member `index_`, so `it[n]` reads the slot at the
iterator position, ignoring `n`.  On the capacity-2 buffer holding 10, 20 the
begin iterator gives `it[1] = 10` while both `*(++it)` and `buffer[1]` give 20. -/
theorem iterator_subscript_wrong_slot :
    iterSubscript (beginIter (pushAll (mkCapacity 2) [10, 20])) 1 = some 10 ∧
    iterDeref (iterInc (beginIter (pushAll (mkCapacity 2) [10, 20]))) = some 20 ∧
    getIdx (pushAll (mkCapacity 2) [10, 20]) 1 = some 20 ∧
    iterSubscript (beginIter (pushAll (mkCapacity 2) [10, 20])) 1 ≠
      getIdx (pushAll (mkCapacity 2) [10, 20]) 1 := by decide

end Claims

end CircularBuffer
